import Mathlib

/-!
Verification of the gitdesktop markdown node-filter pipeline, dispatcher
error handlers and date-locale formatting against their source.

The embedding models:
* `src/app/src/lib/markdown-filters/node-filter.ts` — the pipeline executor
  (`applyNodeFilters` / `applyNodeFilter`) and the memoized pipeline builder
  (`buildCustomMarkDownNodeFilterPipe`);
* `src/app/src/lib/dispatcher/error-handlers.ts` — `defaultErrorHandler` and
  `missingRepositoryHandler`;
* the date formatting module — `formatDate` and `setDateLocale`.

DOM documents are modelled by their parent → ordered-children structure:
a `Doc` is an association list from a node identity to the ordered list of
its children's identities.  `Node.parentNode`, `insertBefore` and
`removeChild` act on this structure exactly as the DOM calls used by the
executor do.  Tree walkers and filters are external collaborators (each
concrete filter class supplies them), so they are abstract parameters of the
executor, with the walker as a state machine reading the live document.
-/

namespace NodeFilterPipeline

/-- A DOM node identity.  Nodes are compared by reference in the source;
the identity stands for the reference. -/
abbrev NodeId := Nat

/-- The parent → ordered-children structure of a DOM document.  Each entry
`(p, cs)` records that the node `p` has the ordered children `cs`. -/
abbrev Doc := List (NodeId × List NodeId)

/-- `node.parentNode`: the first entry whose child list contains `n`.
`none` models a detached node (`parentNode === null`). -/
def parentOf (doc : Doc) (n : NodeId) : Option NodeId :=
  (doc.find? (fun e => decide (n ∈ e.2))).map (·.1)

/-- Rewrites the child list of the node `p` with `f`. -/
def updateChildren (doc : Doc) (p : NodeId) (f : List NodeId → List NodeId) : Doc :=
  doc.map (fun e => if e.1 = p then (e.1, f e.2) else e)

/-- Inserts `newId` immediately before the first occurrence of `refId`.
In the executor `refId` is always present (the parent was found through it),
so the not-found case of the DOM call is unreachable and left as identity. -/
def insertBeforeList (l : List NodeId) (newId refId : NodeId) : List NodeId :=
  match l with
  | [] => []
  | c :: cs => if c = refId then newId :: c :: cs else c :: insertBeforeList cs newId refId

/-- `parent.insertBefore(newId, refId)`. -/
def docInsertBefore (doc : Doc) (p newId refId : NodeId) : Doc :=
  updateChildren doc p (fun l => insertBeforeList l newId refId)

/-- Removes the first occurrence of `c` from a child list. -/
def removeFirstChild (l : List NodeId) (c : NodeId) : List NodeId :=
  match l with
  | [] => []
  | x :: xs => if x = c then xs else x :: removeFirstChild xs c

/-- `parent.removeChild(c)`. -/
def docRemoveChild (doc : Doc) (p c : NodeId) : Doc :=
  updateChildren doc p (fun l => removeFirstChild l c)

/-- A node filter as the executor sees it (interface `INodeFilter`), together
with the tree walker it creates.  `σ` is the walker's private state, `ε` the
error type a failing `filter()` promise rejects with.

* `createFilterTreeWalker` builds the walker's initial state from the document
  (`nodeFilter.createFilterTreeWalker(mdDoc)`);
* `walkerNext` is `walker.nextNode()`: it reads the live document and the
  walker state and yields the next accepted node, or `none` when exhausted;
* `filter` is the asynchronous `nodeFilter.filter(node)`: it either rejects
  with an error, or resolves to `none` (no match) or to the ordered list of
  replacement nodes. -/
structure NodeFilter (σ ε : Type) where
  createFilterTreeWalker : Doc → σ
  walkerNext : σ → Doc → Option NodeId × σ
  filter : NodeId → Doc → Except ε (Option (List NodeId))

/-- The insertion loop of `applyNodeFilter` (lines 110–112): for each
replacement node in order, `currentNode.parentNode?.insertBefore(replacementNode,
currentNode)`.  The optional chaining makes a detached current node a no-op. -/
def insertReplacements (doc : Doc) (cur : NodeId) (rs : List NodeId) : Doc :=
  rs.foldl
    (fun d r =>
      match parentOf d cur with
      | none => d
      | some p => docInsertBefore d p r cur)
    doc

/-- The whole mutation for one matched node (lines 110–113): insert every
replacement before `cur`, then `currentNode.parentNode?.removeChild(currentNode)`. -/
def applyMatchStep (doc : Doc) (cur : NodeId) (rs : List NodeId) : Doc :=
  let inserted := insertReplacements doc cur rs
  match parentOf inserted cur with
  | none => inserted
  | some p => docRemoveChild inserted p cur

/-- The `while (textNode !== null)` loop of `applyNodeFilter` (lines 102–114).
Each iteration awaits `filter(textNode)`, captures the successor with
`walker.nextNode()` on the still-unmutated document, applies the mutation when
a match was returned, and continues with the captured successor.  `fuel`
bounds the number of iterations (the source loop runs until the walker is
exhausted; all statements below are per-iteration or supply enough fuel). -/
def applyNodeFilterLoop (nf : NodeFilter σ ε) :
    Nat → σ → Option NodeId → Doc → Except ε Doc
  | _, _, none, doc => .ok doc
  | 0, _, some _, doc => .ok doc
  | fuel + 1, ws, some cur, doc => do
      let replacementNodes ← nf.filter cur doc
      let (nxt, ws1) := nf.walkerNext ws doc
      let doc1 :=
        match replacementNodes with
        | none => doc
        | some rs => applyMatchStep doc cur rs
      applyNodeFilterLoop nf fuel ws1 nxt doc1

/-- `applyNodeFilter(nodeFilter, mdDoc)` (lines 95–115): create the walker,
take the first node with `walker.nextNode()`, then run the loop. -/
def applyNodeFilter (nf : NodeFilter σ ε) (fuel : Nat) (doc : Doc) : Except ε Doc :=
  let ws := nf.createFilterTreeWalker doc
  let (first, ws0) := nf.walkerNext ws doc
  applyNodeFilterLoop nf fuel ws0 first doc

/-- The `for (const nodeFilter of nodeFilters)` loop of `applyNodeFilters`
(lines 81–83): each filter is awaited in order on the mutated document. -/
def applyFiltersToDoc (fuel : Nat) : List (NodeFilter σ ε) → Doc → Except ε Doc
  | [], doc => .ok doc
  | nf :: rest, doc => do
      let doc1 ← applyNodeFilter nf fuel doc
      applyFiltersToDoc fuel rest doc1

/-- `applyNodeFilters(nodeFilters, parsedMarkdown)` (lines 75–86).  Parsing
(`new DOMParser().parseFromString`) and serialization
(`mdDoc.documentElement.innerHTML`) are external collaborators, passed in as
`parseDoc` and `serialize`. -/
def applyNodeFilters (parseDoc : String → Doc) (serialize : Doc → String)
    (nodeFilters : List (NodeFilter σ ε)) (fuel : Nat)
    (parsedMarkdown : String) : Except ε String := do
  let mdDoc := parseDoc parsedMarkdown
  let finalDoc ← applyFiltersToDoc fuel nodeFilters mdDoc
  return serialize finalDoc

/-! ### Pipeline builder (`buildCustomMarkDownNodeFilterPipe`, lines 43–64)

The builder constructs nine filter instances.  Instance identity matters for
the memoization claims, so each constructed instance carries a fresh
allocation identity drawn from a counter; the constructor argument
(`repository` or the `emoji` map, compared by reference by `memoizeOne`) is
recorded as a reference identity. -/

/-- The concrete filter classes instantiated by the builder, in source order. -/
inductive FilterTag
  | issueMentionFilter
  | issueLinkFilter
  | emojiFilter
  | teamMentionFilter
  | mentionFilter
  | commitMentionFilter
  | commitMentionLinkFilter
  | videoTagFilter
  | videoLinkFilter
deriving DecidableEq

/-- One constructed filter instance: its class, the reference identity of its
constructor argument (`none` for the nullary video filters), and the
allocation identity distinguishing it from any other `new` of the same class. -/
structure FilterInstance where
  tag : FilterTag
  arg : Option Nat
  instanceId : Nat
deriving DecidableEq

/-- The array literal of `buildCustomMarkDownNodeFilterPipe`'s body: nine
`new` expressions evaluated in order, allocating from `fresh`. -/
def buildPipeList (emoji repository : Nat) (fresh : Nat) : List FilterInstance :=
  [⟨.issueMentionFilter, some repository, fresh⟩,
   ⟨.issueLinkFilter, some repository, fresh + 1⟩,
   ⟨.emojiFilter, some emoji, fresh + 2⟩,
   ⟨.teamMentionFilter, some repository, fresh + 3⟩,
   ⟨.mentionFilter, some repository, fresh + 4⟩,
   ⟨.commitMentionFilter, some repository, fresh + 5⟩,
   ⟨.commitMentionLinkFilter, some repository, fresh + 6⟩,
   ⟨.videoTagFilter, none, fresh + 7⟩,
   ⟨.videoLinkFilter, none, fresh + 8⟩]

/-- State of the `memoizeOne` wrapper: the last-seen argument pair (reference
identities of the emoji map and the repository), the cached result, and the
allocation counter for fresh instances. -/
structure MemoState where
  lastArgs : Option (Nat × Nat)
  lastResult : List FilterInstance
  fresh : Nat
deriving DecidableEq

/-- `buildCustomMarkDownNodeFilterPipe = memoizeOne((emoji, repository) => [...])`:
if the argument pair is reference-equal to the last-seen pair, return the
cached array instance; otherwise evaluate the array literal (allocating nine
fresh instances) and cache it. -/
def buildCustomMarkDownNodeFilterPipe (emoji repository : Nat) (st : MemoState) :
    List FilterInstance × MemoState :=
  if st.lastArgs = some (emoji, repository) then
    (st.lastResult, st)
  else
    let res := buildPipeList emoji repository st.fresh
    (res, ⟨some (emoji, repository), res, st.fresh + 9⟩)

/-- The `memoizeOne` wrapper before any call: nothing cached. -/
def initialMemoState : MemoState := ⟨none, [], 0⟩

/-- Every cached pipeline was produced by the array literal: the invariant
maintained by `buildCustomMarkDownNodeFilterPipe` from `initialMemoState`. -/
def MemoWf (st : MemoState) : Prop :=
  st.lastArgs = none ∨ ∃ e r f, st.lastResult = buildPipeList e r f

end NodeFilterPipeline

/-!
### Dispatcher error handlers (`src/app/src/lib/dispatcher/error-handlers.ts`)

The dispatcher and app store are collaborators; an error handler receives the
error and the dispatcher and returns either `null` (handled) or the error for
the next handler.  The dispatcher calls a handler performs are recorded
explicitly, so "presents the error" and "updates the repository as missing"
are visible in the result.
-/

namespace ErrorHandlers

/-- The selection kinds of `SelectionType` used by the handler's guard. -/
inductive SelectionType
  | repository
  | cloningRepository
  | missingRepository
deriving DecidableEq

/-- A repository as the handler sees it: its reference identity and the
`missing` flag read at line 27. -/
structure Repository where
  repoId : Nat
  missing : Bool
deriving DecidableEq

/-- `appState.selectedState` when present: its `type` and its `repository`. -/
structure SelectedState where
  type : SelectionType
  repository : Repository
deriving DecidableEq

/-- The slice of `AppStore.getState()` the handler reads. -/
structure AppState where
  selectedState : Option SelectedState
deriving DecidableEq

/-- Git error classifications (`GitErrorType` from git-kitchen-sink); only
`NotAGitRepository` is distinguished by the handler. -/
inductive GitErrorType
  | notAGitRepository
  | otherGitError (code : Nat)
deriving DecidableEq

/-- An error flowing through the handler chain: either a `GitError` instance
(whose `result.gitError` may be `null`) or any other `Error`. -/
inductive AppError
  | gitError (result : Option GitErrorType) (message : String)
  | plainError (message : String)
deriving DecidableEq

/-- Line 32: `error instanceof GitError && error.result.gitError ===
GitErrorType.NotAGitRepository`. -/
def isNotAGitRepositoryError : AppError → Bool
  | .gitError (some .notAGitRepository) _ => true
  | _ => false

/-- The dispatcher operations the two handlers invoke. -/
inductive DispatcherCall
  | presentError (e : AppError)
  | updateRepositoryMissing (repo : Repository) (missing : Bool)
deriving DecidableEq

/-- `defaultErrorHandler` (lines 7–11): `await dispatcher.presentError(error)`
then `return null`.  The result pairs the returned value with the dispatcher
calls made, in order. -/
def defaultErrorHandler (error : AppError) : Option AppError × List DispatcherCall :=
  (none, [.presentError error])

/-- The handler closure returned by `missingRepositoryHandler(appStore)`
(lines 14–41), applied to the app state it reads and the error. -/
def missingRepositoryHandler (appState : AppState) (error : AppError) :
    Option AppError × List DispatcherCall :=
  match appState.selectedState with
  | none => (some error, [])
  | some selectedState =>
    if selectedState.type ≠ SelectionType.missingRepository ∧
        selectedState.type ≠ SelectionType.repository then
      (some error, [])
    else if selectedState.repository.missing then
      (none, [])
    else if isNotAGitRepositoryError error then
      (none, [.updateRepositoryMissing selectedState.repository true])
    else
      (some error, [])

end ErrorHandlers

/-!
### Date formatting module (`formatDate` / `setDateLocale`)

The module keeps one mutable binding `dateLocale : string | undefined`,
threaded here as `DateLocaleState`.  `Intl.DateTimeFormat` and the memoized
`getDateFormatter` are collaborators: `formatDate` is parameterized over the
formatting function and additionally reports whether `getDateFormatter` was
reached at all (the `.format` call site is behind the `isNaN` ternary).
`log.error` calls are returned as a list of logged messages.
-/

namespace DateFormatting

/-- `const defaultLocale = 'en-US'`. -/
def defaultLocale : String := "en-US"

/-- The module-level `let dateLocale: string | undefined`. -/
structure DateLocaleState where
  dateLocale : Option String
deriving DecidableEq

/-- A JavaScript `Date`; `valueOf` is `none` for an invalid date
(`date.valueOf()` is `NaN`). -/
structure Date where
  valueOf : Option Int
deriving DecidableEq

/-- An opaque `Intl.DateTimeFormatOptions` bag, compared by identity of its
contents. -/
abbrev DateTimeFormatOptions := Nat

/-- The `locale` argument passed to `getDateFormatter`: a single locale
string or an array of locale strings. -/
inductive LocaleArg
  | single (locale : String)
  | array (locales : List String)
deriving DecidableEq

/-- `locale.replaceAll('_', '-')`: character-wise replacement (the pattern is
a single character). -/
def replaceUnderscores (s : String) : String :=
  ⟨s.data.map (fun c => if c = '_' then '-' else c)⟩

/-- Splits a character sequence at every occurrence of `sep` (the subtag
structure of a bcp-47 tag). -/
def splitCharList (sep : Char) : List Char → List (List Char)
  | [] => [[]]
  | c :: cs =>
    let rest := splitCharList sep cs
    if c = sep then [] :: rest
    else
      match rest with
      | [] => [[c]]
      | g :: gs => (c :: g) :: gs

/-- A subtag that bcp-47 accepts as a region: two letters or three digits. -/
def isRegionSubtag (s : List Char) : Bool :=
  (s.length == 2 && s.all Char.isAlpha) || (s.length == 3 && s.all Char.isDigit)

/-- Modelled from the spec: the external bcp-47 `parse` collaborator (the
`parse(..., { forgiving: true })` call), reduced to the one field the module
reads.  Per the spec's locale scenario, a tag such as `"fr-CA"` resolves to
its region subtag and an unparseable string resolves to no region; the region
is the first subtag after the primary language that has bcp-47 region shape.
With `forgiving: true` the parse never throws, so the result is total. -/
def bcp47ParseRegion (tag : String) : Option String :=
  match splitCharList '-' tag.data with
  | [] => none
  | _ :: rest => (rest.find? isRegionSubtag).map (fun l => ⟨l⟩)

/-- `setDateLocale(locale)` (lines 38–56).  Returns the new state, the
messages passed to `log.error` (in order), and the function's return value.
The source wraps the parse in a `try`/`catch` whose handler would keep the
state unchanged; with `forgiving: true` the parse never throws, so the
modelled parse is total and every branch overwrites `dateLocale` — the
previous state `_st` is never read. -/
def setDateLocale (locale : Option String) (_st : DateLocaleState) :
    DateLocaleState × List String × Option String :=
  match locale with
  | none => (⟨none⟩, [], none)
  | some l =>
    match bcp47ParseRegion (replaceUnderscores l) with
    | none =>
      (⟨none⟩, ["Failed parsing locale from " ++ l], none)
    | some region =>
      (⟨some ("en-" ++ region)⟩, [], some ("en-" ++ region))

/-- Line 32: `dateLocale ? [dateLocale, defaultLocale] : defaultLocale`. -/
def localeArgument (st : DateLocaleState) : LocaleArg :=
  match st.dateLocale with
  | some d => .array [d, defaultLocale]
  | none => .single defaultLocale

/-- `formatDate(date, options)` (lines 31–36), parameterized over the
collaborator `getDateFormatter(locale, options).format(date)` pipeline
(`fmt`).  The second component records whether that pipeline was evaluated:
`false` means no formatter was constructed or invoked. -/
def formatDate (fmt : LocaleArg → DateTimeFormatOptions → Date → String)
    (st : DateLocaleState) (date : Date) (options : DateTimeFormatOptions) :
    String × Bool :=
  let locale := localeArgument st
  if date.valueOf = none then ("Invalid date", false)
  else (fmt locale options date, true)

end DateFormatting

/-!
### Concrete collaborator instances

Closed instantiations of the abstract walker/filter collaborators, used to
evaluate the executor on concrete documents.
-/

namespace NodeFilterPipeline

/-- A tree walker whose state is the queue of nodes still to yield:
`nextNode()` pops the head. -/
def queueWalkerNext (s : List NodeId) (_doc : Doc) : Option NodeId × List NodeId :=
  match s with
  | [] => (none, [])
  | n :: rest => (some n, rest)

/-- A filter that matches node `1` and replaces it with nodes `10` and `11`. -/
def exampleMatchFilter : NodeFilter (List NodeId) String where
  createFilterTreeWalker := fun _ => [1]
  walkerNext := queueWalkerNext
  filter := fun n _ => if n = 1 then .ok (some [10, 11]) else .ok none

/-- A filter whose asynchronous `filter()` always rejects. -/
def exampleFailingFilter : NodeFilter (List NodeId) String where
  createFilterTreeWalker := fun _ => [1]
  walkerNext := queueWalkerNext
  filter := fun _ _ => .error "lookup failed"

end NodeFilterPipeline

/-! ## Theorems -/

namespace DateFormatting

/-- C9: for every invalid `Date` (its numeric value is `NaN`) and every
formatting options object, `formatDate` returns the literal string
`"Invalid date"` and the `getDateFormatter(...).format(...)` collaborator
pipeline is never evaluated (no formatter is constructed or invoked),
whatever that collaborator and the locale state are. -/
theorem formatDate_invalid_date
    (fmt : LocaleArg → DateTimeFormatOptions → Date → String)
    (st : DateLocaleState) (date : Date) (options : DateTimeFormatOptions)
    (h : date.valueOf = none) :
    formatDate fmt st date options = ("Invalid date", false) := by
  simp [formatDate, h]

/-- `formatDate_invalid_date` evaluated at the invalid date and a concrete
formatter/state/options triple. -/
theorem formatDate_invalid_date_witness :
    (Date.mk none).valueOf = none ∧
      formatDate (fun _ _ _ => "formatted") ⟨some "en-CA"⟩ ⟨none⟩ 0
        = ("Invalid date", false) :=
  ⟨rfl, formatDate_invalid_date (fun _ _ _ => "formatted") ⟨some "en-CA"⟩ ⟨none⟩ 0 rfl⟩

/-- C8: from any prior state, `setDateLocale "fr_CA"` returns normally with
no logged error and sets the locale to the region-qualified `"en-CA"`
(region `CA`); every subsequent `formatDate` call on a valid date formats
through the collaborator with the locale list `["en-CA", "en-US"]`. -/
theorem setDateLocale_frCA_formats_with_CA (st : DateLocaleState) :
    setDateLocale (some "fr_CA") st = (⟨some "en-CA"⟩, [], some "en-CA")
    ∧ ∀ (fmt : LocaleArg → DateTimeFormatOptions → Date → String)
        (date : Date) (options : DateTimeFormatOptions),
        date.valueOf ≠ none →
        formatDate fmt ⟨some "en-CA"⟩ date options
          = (fmt (.array ["en-CA", "en-US"]) options date, true) := by
  refine ⟨rfl, fun fmt date options h => ?_⟩
  simp [formatDate, localeArgument, defaultLocale, h]

/-- `setDateLocale_frCA_formats_with_CA` evaluated at a concrete prior state,
formatter, date and options. -/
theorem setDateLocale_frCA_formats_with_CA_witness :
    (setDateLocale (some "fr_CA") ⟨none⟩ = (⟨some "en-CA"⟩, [], some "en-CA")
      ∧ ∀ (fmt : LocaleArg → DateTimeFormatOptions → Date → String)
          (date : Date) (options : DateTimeFormatOptions),
          date.valueOf ≠ none →
          formatDate fmt ⟨some "en-CA"⟩ date options
            = (fmt (.array ["en-CA", "en-US"]) options date, true))
    ∧ formatDate (fun _ _ _ => "x") ⟨some "en-CA"⟩ ⟨some 0⟩ 0
        = ((fun (_ : LocaleArg) (_ : DateTimeFormatOptions) (_ : Date) => "x")
            (.array ["en-CA", "en-US"]) 0 ⟨some 0⟩, true) :=
  ⟨setDateLocale_frCA_formats_with_CA ⟨none⟩,
   (setDateLocale_frCA_formats_with_CA ⟨none⟩).2
     (fun _ _ _ => "x") ⟨some 0⟩ 0 (by decide)⟩

/-- C7 counterexample: with `"en-CA"` previously configured, setting an
unparseable locale does not leave the previously configured locale unchanged
in effect — the stored locale is reset to `undefined` — even though the
failure is logged. -/
theorem setDateLocale_unparseable_counterexample :
    bcp47ParseRegion (replaceUnderscores "nonsense") = none
    ∧ (setDateLocale (some "nonsense") ⟨some "en-CA"⟩).1
        ≠ (⟨some "en-CA"⟩ : DateLocaleState)
    ∧ (setDateLocale (some "nonsense") ⟨some "en-CA"⟩).2.1
        = ["Failed parsing locale from nonsense"] := by
  decide

/-- C7 (amended): for every previously configured locale state, calling
`setDateLocale` with an unparseable locale string (no region can be parsed)
logs a failure diagnostic, returns normally (no throw), and resets the
configured locale to `undefined`, so subsequent `formatDate` calls use the
default locale behavior. -/
theorem setDateLocale_unparseable_resets (st : DateLocaleState) (l : String)
    (h : bcp47ParseRegion (replaceUnderscores l) = none) :
    setDateLocale (some l) st = (⟨none⟩, ["Failed parsing locale from " ++ l], none)
    ∧ localeArgument (setDateLocale (some l) st).1 = .single defaultLocale := by
  simp [setDateLocale, h, localeArgument]

/-- `setDateLocale_unparseable_resets` evaluated at the unparseable string
`"nonsense"` over the configured state `"en-CA"`. -/
theorem setDateLocale_unparseable_resets_witness :
    bcp47ParseRegion (replaceUnderscores "nonsense") = none
    ∧ (setDateLocale (some "nonsense") ⟨some "en-CA"⟩
          = (⟨none⟩, ["Failed parsing locale from " ++ "nonsense"], none)
       ∧ localeArgument (setDateLocale (some "nonsense") ⟨some "en-CA"⟩).1
          = .single defaultLocale) :=
  ⟨by decide, setDateLocale_unparseable_resets ⟨some "en-CA"⟩ "nonsense" (by decide)⟩

end DateFormatting

namespace ErrorHandlers

/-- C10: for every error, `defaultErrorHandler` presents the error through
the dispatcher's `presentError` operation and returns `null` (handled); it
never returns the error for further handling. -/
theorem defaultErrorHandler_presents_and_handles (error : AppError) :
    defaultErrorHandler error = (none, [DispatcherCall.presentError error]) :=
  rfl

/-- C4 counterexample: with a `Repository` selection whose repository is
already marked missing, a plain non-git error is downgraded to handled
(`null`) although it is not classified "not a git repository" — the claim
requires every such error to be returned unchanged. -/
theorem missingRepositoryHandler_counterexample :
    (missingRepositoryHandler
        ⟨some ⟨SelectionType.repository, ⟨0, true⟩⟩⟩ (AppError.plainError "fail")).1 = none
    ∧ isNotAGitRepositoryError (AppError.plainError "fail") = false := by
  decide

/-- C4 (amended): the handler returned by `missingRepositoryHandler` returns
`null` exactly when the current selection is a `Repository` or
`MissingRepository` selection (whose repository the handler treats as the
affected one) and either that repository is already marked missing or the
error is a `GitError` classified "not a git repository"; in every other case
it returns the received error unchanged. -/
theorem missingRepositoryHandler_characterization (st : AppState) (e : AppError) :
    ((missingRepositoryHandler st e).1 = none ↔
      ∃ sel, st.selectedState = some sel
        ∧ (sel.type = SelectionType.missingRepository ∨ sel.type = SelectionType.repository)
        ∧ (sel.repository.missing = true ∨ isNotAGitRepositoryError e = true))
    ∧ ((missingRepositoryHandler st e).1 = none
        ∨ (missingRepositoryHandler st e).1 = some e) := by
  obtain ⟨sel?⟩ := st
  cases sel? with
  | none => simp [missingRepositoryHandler]
  | some sel =>
    simp only [missingRepositoryHandler, Option.some.injEq, exists_eq_left']
    split_ifs with h1 h2 h3 <;> simp_all <;> tauto

end ErrorHandlers

namespace NodeFilterPipeline

/-- In every array built by the builder's array literal, the team-mention
filter sits at index 3 and the generic user-mention filter at index 4,
whatever the arguments and the allocation counter. -/
theorem buildPipeList_findIdx (e r f : Nat) :
    (buildPipeList e r f).findIdx
        (fun fi => fi.tag == FilterTag.teamMentionFilter) = 3
    ∧ (buildPipeList e r f).findIdx
        (fun fi => fi.tag == FilterTag.mentionFilter) = 4 :=
  ⟨rfl, rfl⟩

/-- C6: in every pipeline produced by `buildCustomMarkDownNodeFilterPipe`
(from any cache state reachable from the initial one, captured by `MemoWf`),
the team-mention filter occurs strictly earlier than the generic user-mention
filter; and the cache state after the call again satisfies `MemoWf`. -/
theorem teamMentionFilter_precedes_mentionFilter (e r : Nat) (st : MemoState)
    (hwf : MemoWf st) :
    ((buildCustomMarkDownNodeFilterPipe e r st).1.findIdx
        (fun fi => fi.tag == FilterTag.teamMentionFilter))
      < ((buildCustomMarkDownNodeFilterPipe e r st).1.findIdx
        (fun fi => fi.tag == FilterTag.mentionFilter))
    ∧ MemoWf (buildCustomMarkDownNodeFilterPipe e r st).2 := by
  unfold buildCustomMarkDownNodeFilterPipe
  split_ifs with h
  · rcases hwf with hnone | ⟨e0, r0, f0, hres⟩
    · rw [hnone] at h
      exact absurd h (by simp)
    · refine ⟨?_, Or.inr ⟨e0, r0, f0, hres⟩⟩
      have hidx := buildPipeList_findIdx e0 r0 f0
      simp only [hres, hidx.1, hidx.2]
      omega
  · refine ⟨?_, Or.inr ⟨e, r, st.fresh, rfl⟩⟩
    have hidx := buildPipeList_findIdx e r st.fresh
    simp only [hidx.1, hidx.2]
    omega

/-- `teamMentionFilter_precedes_mentionFilter` evaluated at the initial cache
state and a concrete argument pair. -/
theorem teamMentionFilter_precedes_mentionFilter_witness :
    MemoWf initialMemoState
    ∧ (((buildCustomMarkDownNodeFilterPipe 1 2 initialMemoState).1.findIdx
          (fun fi => fi.tag == FilterTag.teamMentionFilter))
        < ((buildCustomMarkDownNodeFilterPipe 1 2 initialMemoState).1.findIdx
          (fun fi => fi.tag == FilterTag.mentionFilter))
      ∧ MemoWf (buildCustomMarkDownNodeFilterPipe 1 2 initialMemoState).2) :=
  ⟨Or.inl rfl, teamMentionFilter_precedes_mentionFilter 1 2 initialMemoState (Or.inl rfl)⟩

/-- C5: the builder memoizes with cache depth 1 on its last-seen argument
pair.  After a call with the pair `(e, r)` produced `(res, st1)`, a second
consecutive call with the same pair returns the identical pipeline instance
`res` (the same filter instances in the same order, no new allocation, state
untouched), while a call with any changed pair rebuilds: it evaluates the
array literal afresh at the current allocation counter and replaces the
cached pair and result. -/
theorem buildCustomMarkDownNodeFilterPipe_memoizes (e r : Nat) (st : MemoState)
    (res : List FilterInstance) (st1 : MemoState)
    (h : buildCustomMarkDownNodeFilterPipe e r st = (res, st1)) :
    buildCustomMarkDownNodeFilterPipe e r st1 = (res, st1)
    ∧ ∀ e1 r1, (e1, r1) ≠ (e, r) →
        buildCustomMarkDownNodeFilterPipe e1 r1 st1
          = (buildPipeList e1 r1 st1.fresh,
             ⟨some (e1, r1), buildPipeList e1 r1 st1.fresh, st1.fresh + 9⟩) := by
  have hargs : st1.lastArgs = some (e, r) ∧ st1.lastResult = res := by
    unfold buildCustomMarkDownNodeFilterPipe at h
    split_ifs at h with hc
    · obtain ⟨h1, h2⟩ := Prod.mk.inj h
      subst h2
      exact ⟨hc, h1⟩
    · obtain ⟨h1, h2⟩ := Prod.mk.inj h
      subst h2
      exact ⟨rfl, h1⟩
  refine ⟨?_, fun e1 r1 hne => ?_⟩
  · simp [buildCustomMarkDownNodeFilterPipe, hargs.1, hargs.2]
  · have hcond : st1.lastArgs ≠ some (e1, r1) := by
      rw [hargs.1]
      intro hcontra
      exact hne (Option.some.inj hcontra).symm
    simp [buildCustomMarkDownNodeFilterPipe, hcond]

/-- `buildCustomMarkDownNodeFilterPipe_memoizes` evaluated at a first call on
the initial cache state. -/
theorem buildCustomMarkDownNodeFilterPipe_memoizes_witness :
    buildCustomMarkDownNodeFilterPipe 1 2 initialMemoState
      = (buildPipeList 1 2 0, ⟨some (1, 2), buildPipeList 1 2 0, 9⟩)
    ∧ (buildCustomMarkDownNodeFilterPipe 1 2 ⟨some (1, 2), buildPipeList 1 2 0, 9⟩
          = (buildPipeList 1 2 0, ⟨some (1, 2), buildPipeList 1 2 0, 9⟩)
       ∧ ∀ e1 r1, (e1, r1) ≠ (1, 2) →
          buildCustomMarkDownNodeFilterPipe e1 r1 ⟨some (1, 2), buildPipeList 1 2 0, 9⟩
            = (buildPipeList e1 r1 9,
               ⟨some (e1, r1), buildPipeList e1 r1 9, 9 + 9⟩)) :=
  ⟨by decide,
   buildCustomMarkDownNodeFilterPipe_memoizes 1 2 initialMemoState
     (buildPipeList 1 2 0) ⟨some (1, 2), buildPipeList 1 2 0, 9⟩ (by decide)⟩

end NodeFilterPipeline

namespace NodeFilterPipeline

/-- Inserting before the first occurrence of `cur` in a list that shows it
splices the new node immediately before it. -/
theorem insertBeforeList_split (l₁ l₂ : List NodeId) (r cur : NodeId)
    (h : cur ∉ l₁) :
    insertBeforeList (l₁ ++ cur :: l₂) r cur = l₁ ++ r :: cur :: l₂ := by
  induction l₁ with
  | nil => simp [insertBeforeList]
  | cons x xs ih =>
    have hx : x ≠ cur := fun hxc => h (hxc ▸ List.mem_cons_self x xs)
    have hxs : cur ∉ xs := fun hc => h (List.mem_cons_of_mem x hc)
    simp [insertBeforeList, hx, ih hxs]

/-- Removing the first occurrence of `cur` from a list that shows it deletes
exactly that occurrence. -/
theorem removeFirstChild_split (l₁ l₂ : List NodeId) (cur : NodeId)
    (h : cur ∉ l₁) :
    removeFirstChild (l₁ ++ cur :: l₂) cur = l₁ ++ l₂ := by
  induction l₁ with
  | nil => simp [removeFirstChild]
  | cons x xs ih =>
    have hx : x ≠ cur := fun hxc => h (hxc ▸ List.mem_cons_self x xs)
    have hxs : cur ∉ xs := fun hc => h (List.mem_cons_of_mem x hc)
    simp [removeFirstChild, hx, ih hxs]

/-- `parentNode` finds the displayed entry when no earlier entry contains the
child. -/
theorem parentOf_split (pre post : Doc) (p cur : NodeId) (l : List NodeId)
    (hpre : ∀ e ∈ pre, cur ∉ e.2) (hcur : cur ∈ l) :
    parentOf (pre ++ (p, l) :: post) cur = some p := by
  induction pre with
  | nil => simp [parentOf, List.find?_cons_of_pos, hcur]
  | cons e es ih =>
    have he : cur ∉ e.2 := hpre e (List.mem_cons_self e es)
    have ih2 := ih (fun x hx => hpre x (List.mem_cons_of_mem e hx))
    simpa [parentOf, List.find?_cons_of_neg, he] using ih2

/-- `updateChildren` is the identity on documents without the target entry. -/
theorem updateChildren_skips (doc : Doc) (p : NodeId)
    (f : List NodeId → List NodeId) (h : ∀ e ∈ doc, e.1 ≠ p) :
    updateChildren doc p f = doc := by
  induction doc with
  | nil => rfl
  | cons e es ih =>
    have he : e.1 ≠ p := h e (List.mem_cons_self e es)
    have ih2 := ih (fun x hx => h x (List.mem_cons_of_mem e hx))
    simp only [updateChildren, List.map_cons, if_neg he] at *
    rw [ih2]

/-- `updateChildren` rewrites exactly the displayed entry when it is the only
one keyed by `p`. -/
theorem updateChildren_split (pre post : Doc) (p : NodeId) (l : List NodeId)
    (f : List NodeId → List NodeId)
    (hpre : ∀ e ∈ pre, e.1 ≠ p) (hpost : ∀ e ∈ post, e.1 ≠ p) :
    updateChildren (pre ++ (p, l) :: post) p f = pre ++ (p, f l) :: post := by
  have h1 := updateChildren_skips pre p f hpre
  have h2 := updateChildren_skips post p f hpost
  simp only [updateChildren, List.map_append, List.map_cons] at *
  rw [h1, h2]
  simp

/-- The insertion loop splices the replacement nodes, in order, immediately
before the still-present matched node. -/
theorem insertReplacements_split (p cur : NodeId) (rs : List NodeId)
    (pre post : Doc) (l₁ l₂ : List NodeId)
    (hpreP : ∀ e ∈ pre, e.1 ≠ p) (hpreC : ∀ e ∈ pre, cur ∉ e.2)
    (hpost : ∀ e ∈ post, e.1 ≠ p)
    (hl₁ : cur ∉ l₁) (hrs : cur ∉ rs) :
    insertReplacements (pre ++ (p, l₁ ++ cur :: l₂) :: post) cur rs
      = pre ++ (p, (l₁ ++ rs) ++ cur :: l₂) :: post := by
  induction rs generalizing l₁ with
  | nil => simp [insertReplacements]
  | cons r rs ih =>
    have hr : cur ≠ r := fun hcr => hrs (hcr ▸ List.mem_cons_self r rs)
    have hrs2 : cur ∉ rs := fun hc => hrs (List.mem_cons_of_mem r hc)
    have hparent : parentOf (pre ++ (p, l₁ ++ cur :: l₂) :: post) cur = some p :=
      parentOf_split pre post p cur _ hpreC (by simp)
    have hstep : docInsertBefore (pre ++ (p, l₁ ++ cur :: l₂) :: post) p r cur
        = pre ++ (p, (l₁ ++ [r]) ++ cur :: l₂) :: post := by
      unfold docInsertBefore
      rw [updateChildren_split pre post p _ _ hpreP hpost,
        insertBeforeList_split l₁ l₂ r cur hl₁]
      simp
    have hl₁r : cur ∉ l₁ ++ [r] := by
      simp only [List.mem_append, List.mem_singleton]
      rintro (hc | hc)
      · exact hl₁ hc
      · exact hr hc
    have ihr := ih (l₁ ++ [r]) hl₁r hrs2
    simp only [insertReplacements, List.foldl_cons, hparent] at ihr ⊢
    rw [hstep]
    simpa [List.append_assoc] using ihr

/-- The full mutation for one matched node rewrites the matched node's
sibling list into prefix ++ replacements ++ suffix. -/
theorem applyMatchStep_split (p cur : NodeId) (rs : List NodeId)
    (pre post : Doc) (l₁ l₂ : List NodeId)
    (hpreP : ∀ e ∈ pre, e.1 ≠ p) (hpreC : ∀ e ∈ pre, cur ∉ e.2)
    (hpost : ∀ e ∈ post, e.1 ≠ p)
    (hl₁ : cur ∉ l₁) (hrs : cur ∉ rs) :
    applyMatchStep (pre ++ (p, l₁ ++ cur :: l₂) :: post) cur rs
      = pre ++ (p, (l₁ ++ rs) ++ l₂) :: post := by
  have hins := insertReplacements_split p cur rs pre post l₁ l₂ hpreP hpreC hpost hl₁ hrs
  have hparent : parentOf (pre ++ (p, (l₁ ++ rs) ++ cur :: l₂) :: post) cur = some p :=
    parentOf_split pre post p cur _ hpreC (by simp)
  have hl₁rs : cur ∉ l₁ ++ rs := by
    simp only [List.mem_append]
    rintro (hc | hc)
    · exact hl₁ hc
    · exact hrs hc
  simp only [applyMatchStep, hins, hparent]
  unfold docRemoveChild
  rw [updateChildren_split pre post p _ _ hpreP hpost,
    removeFirstChild_split (l₁ ++ rs) l₂ cur hl₁rs]

/-- One iteration of the executor loop: after `filter(textNode)` resolves,
the successor is read from the walker on the still-unmutated document and the
loop continues with it, applying the mutation only on a match. -/
theorem applyNodeFilterLoop_step (nf : NodeFilter σ ε) (fuel : Nat) (ws : σ)
    (cur : NodeId) (doc : Doc) (r : Option (List NodeId))
    (hf : nf.filter cur doc = .ok r) :
    applyNodeFilterLoop nf (fuel + 1) ws (some cur) doc
      = applyNodeFilterLoop nf fuel (nf.walkerNext ws doc).2 (nf.walkerNext ws doc).1
          (match r with
           | none => doc
           | some rs => applyMatchStep doc cur rs) := by
  rcases hwn : nf.walkerNext ws doc with ⟨nxt, ws1⟩
  cases r <;> simp [applyNodeFilterLoop, hf, hwn, Bind.bind, Except.bind]

/-- C2: in every iteration of the executor loop, the successor to visit is
obtained from the tree walker on the document as it stands before any
mutation of that iteration (insertions or removal), and the loop advances to
that precomputed successor whether or not the filter matched. -/
theorem applyNodeFilterLoop_precomputed_successor (nf : NodeFilter σ ε)
    (fuel : Nat) (ws : σ) (cur : NodeId) (doc : Doc) (r : Option (List NodeId))
    (hf : nf.filter cur doc = .ok r) :
    applyNodeFilterLoop nf (fuel + 1) ws (some cur) doc
      = applyNodeFilterLoop nf fuel (nf.walkerNext ws doc).2 (nf.walkerNext ws doc).1
          (match r with
           | none => doc
           | some rs => applyMatchStep doc cur rs) :=
  applyNodeFilterLoop_step nf fuel ws cur doc r hf

/-- C1: in any iteration of a filter pass over a document where the current
node `cur` sits among the children of `p` as `l₁ ++ cur :: l₂` (identities
unambiguous), a match returning the replacement sequence `rs` first inserts
every replacement, in order, immediately before the still-present matched
node (the document then reads `l₁ ++ rs ++ cur :: l₂` under `p`), and only
then removes the matched node, so the loop continues on
`l₁ ++ rs ++ l₂`; a no-match leaves the document unchanged for that node. -/
theorem applyNodeFilter_match_replaces (nf : NodeFilter σ ε) (fuel : Nat)
    (ws : σ) (p cur : NodeId) (pre post : Doc) (l₁ l₂ rs : List NodeId)
    (doc : Doc) (hdoc : doc = pre ++ (p, l₁ ++ cur :: l₂) :: post)
    (hpreP : ∀ e ∈ pre, e.1 ≠ p) (hpreC : ∀ e ∈ pre, cur ∉ e.2)
    (hpost : ∀ e ∈ post, e.1 ≠ p)
    (hl₁ : cur ∉ l₁) (hrs : cur ∉ rs) :
    (nf.filter cur doc = .ok (some rs) →
      insertReplacements doc cur rs = pre ++ (p, (l₁ ++ rs) ++ cur :: l₂) :: post
      ∧ applyMatchStep doc cur rs
          = docRemoveChild (insertReplacements doc cur rs) p cur
      ∧ applyNodeFilterLoop nf (fuel + 1) ws (some cur) doc
          = applyNodeFilterLoop nf fuel
              (nf.walkerNext ws doc).2 (nf.walkerNext ws doc).1
              (pre ++ (p, (l₁ ++ rs) ++ l₂) :: post))
    ∧ (nf.filter cur doc = .ok none →
      applyNodeFilterLoop nf (fuel + 1) ws (some cur) doc
        = applyNodeFilterLoop nf fuel
            (nf.walkerNext ws doc).2 (nf.walkerNext ws doc).1 doc) := by
  subst hdoc
  have hins := insertReplacements_split p cur rs pre post l₁ l₂ hpreP hpreC hpost hl₁ hrs
  have hstep := applyMatchStep_split p cur rs pre post l₁ l₂ hpreP hpreC hpost hl₁ hrs
  have hparent : parentOf (pre ++ (p, (l₁ ++ rs) ++ cur :: l₂) :: post) cur = some p :=
    parentOf_split pre post p cur _ hpreC (by simp)
  refine ⟨fun hf => ⟨hins, ?_, ?_⟩, fun hf => ?_⟩
  · simp only [applyMatchStep, hins, hparent]
  · have h2 : applyNodeFilterLoop nf (fuel + 1) ws (some cur)
        (pre ++ (p, l₁ ++ cur :: l₂) :: post)
        = applyNodeFilterLoop nf fuel
            (nf.walkerNext ws (pre ++ (p, l₁ ++ cur :: l₂) :: post)).2
            (nf.walkerNext ws (pre ++ (p, l₁ ++ cur :: l₂) :: post)).1
            (applyMatchStep (pre ++ (p, l₁ ++ cur :: l₂) :: post) cur rs) :=
      applyNodeFilterLoop_step nf fuel ws cur _ (some rs) hf
    rw [hstep] at h2
    exact h2
  · exact applyNodeFilterLoop_step nf fuel ws cur _ none hf

/-- `applyNodeFilter_match_replaces` evaluated on the document whose root `0`
has children `[1, 2]`, with node `1` matched and replaced by `[10, 11]`. -/
theorem applyNodeFilter_match_replaces_witness :
    ((1 : NodeId) ∉ ([] : List NodeId)) ∧ ((1 : NodeId) ∉ ([10, 11] : List NodeId)) ∧
      ((exampleMatchFilter.filter 1 [(0, [1, 2])] = .ok (some [10, 11]) →
        insertReplacements [(0, [1, 2])] 1 [10, 11] = [(0, [10, 11, 1, 2])]
        ∧ applyMatchStep [(0, [1, 2])] 1 [10, 11]
            = docRemoveChild (insertReplacements [(0, [1, 2])] 1 [10, 11]) 0 1
        ∧ applyNodeFilterLoop exampleMatchFilter (5 + 1)
              ([] : List NodeId) (some 1) [(0, [1, 2])]
            = applyNodeFilterLoop exampleMatchFilter 5
                (exampleMatchFilter.walkerNext [] [(0, [1, 2])]).2
                (exampleMatchFilter.walkerNext [] [(0, [1, 2])]).1
                [(0, [10, 11, 2])])
      ∧ (exampleMatchFilter.filter 1 [(0, [1, 2])] = .ok none →
        applyNodeFilterLoop exampleMatchFilter (5 + 1)
            ([] : List NodeId) (some 1) [(0, [1, 2])]
          = applyNodeFilterLoop exampleMatchFilter 5
              (exampleMatchFilter.walkerNext [] [(0, [1, 2])]).2
              (exampleMatchFilter.walkerNext [] [(0, [1, 2])]).1
              [(0, [1, 2])])) :=
  ⟨by decide, by decide,
   applyNodeFilter_match_replaces exampleMatchFilter 5 ([] : List NodeId) 0 1
     [] [] [] [2] [10, 11] [(0, [1, 2])] rfl
     (by simp) (by simp) (by simp) (by decide) (by decide)⟩

/-- `applyNodeFilterLoop_precomputed_successor` evaluated on the same
concrete document and filter, at a matching iteration. -/
theorem applyNodeFilterLoop_precomputed_successor_witness :
    exampleMatchFilter.filter 1 [(0, [1, 2])] = .ok (some [10, 11])
    ∧ applyNodeFilterLoop exampleMatchFilter (3 + 1)
          ([2] : List NodeId) (some 1) [(0, [1, 2])]
        = applyNodeFilterLoop exampleMatchFilter 3
            (exampleMatchFilter.walkerNext [2] [(0, [1, 2])]).2
            (exampleMatchFilter.walkerNext [2] [(0, [1, 2])]).1
            (applyMatchStep [(0, [1, 2])] 1 [10, 11]) :=
  ⟨rfl,
   applyNodeFilterLoop_precomputed_successor exampleMatchFilter 3
     ([2] : List NodeId) 1 [(0, [1, 2])] (some [10, 11]) rfl⟩

/-- Every error a filter pass produces originates from a `filter(node)`
rejection: the loop itself introduces no errors. -/
theorem applyNodeFilterLoop_error_from_filter (nf : NodeFilter σ ε) (fuel : Nat) :
    ∀ (ws : σ) (cur : Option NodeId) (doc : Doc) (e : ε),
      applyNodeFilterLoop nf fuel ws cur doc = .error e →
      ∃ n d, nf.filter n d = .error e := by
  induction fuel with
  | zero =>
    intro ws cur doc e h
    cases cur <;> simp [applyNodeFilterLoop] at h
  | succ fuel ih =>
    intro ws cur doc e h
    cases cur with
    | none => simp [applyNodeFilterLoop] at h
    | some n =>
      rcases hf : nf.filter n doc with e1 | r
      · simp only [applyNodeFilterLoop, hf, Bind.bind, Except.bind] at h
        obtain rfl : e1 = e := by simpa using h
        exact ⟨n, doc, hf⟩
      · rcases hwn : nf.walkerNext ws doc with ⟨nxt, ws1⟩
        simp only [applyNodeFilterLoop, hf, hwn, Bind.bind, Except.bind] at h
        exact ih ws1 nxt _ e h

/-- Errors of a whole `applyNodeFilter` pass originate from a
`filter(node)` rejection. -/
theorem applyNodeFilter_error_from_filter (nf : NodeFilter σ ε) (fuel : Nat)
    (doc : Doc) (e : ε) (h : applyNodeFilter nf fuel doc = .error e) :
    ∃ n d, nf.filter n d = .error e := by
  rcases hwn : nf.walkerNext (nf.createFilterTreeWalker doc) doc with ⟨first, ws0⟩
  simp only [applyNodeFilter, hwn] at h
  exact applyNodeFilterLoop_error_from_filter nf fuel ws0 first doc e h

/-- C3: if, after the filters in `pre` succeeded on the parsed document, the
filter `nf`'s `filter(node)` operation raises an error, then
`applyNodeFilters` propagates exactly that error to its caller for every
possible remainder of the pipeline — no later filter is applied to the
document and no (partial) markup string is returned; and the error indeed
originates from a `filter(node)` rejection of `nf`. -/
theorem applyNodeFilters_error_aborts (parseDoc : String → Doc)
    (serialize : Doc → String) (pre : List (NodeFilter σ ε))
    (nf : NodeFilter σ ε) (fuel : Nat) (md : String) (doc1 : Doc) (e : ε)
    (hpre : applyFiltersToDoc fuel pre (parseDoc md) = .ok doc1)
    (herr : applyNodeFilter nf fuel doc1 = .error e) :
    (∃ n d, nf.filter n d = .error e)
    ∧ ∀ rest : List (NodeFilter σ ε),
        applyNodeFilters parseDoc serialize (pre ++ nf :: rest) fuel md
          = .error e := by
  have hlist : ∀ (ps : List (NodeFilter σ ε)) (d : Doc),
      applyFiltersToDoc fuel ps d = .ok doc1 →
      ∀ rest : List (NodeFilter σ ε),
        applyFiltersToDoc fuel (ps ++ nf :: rest) d = .error e := by
    intro ps
    induction ps with
    | nil =>
      intro d hd rest
      have hd1 : d = doc1 := by simpa [applyFiltersToDoc] using hd
      subst hd1
      simp [applyFiltersToDoc, herr, Bind.bind, Except.bind]
    | cons x xs ih =>
      intro d hd rest
      rcases hx : applyNodeFilter x fuel d with e1 | d2
      · simp [applyFiltersToDoc, hx, Bind.bind, Except.bind] at hd
      · simp only [applyFiltersToDoc, hx, Bind.bind, Except.bind] at hd
        simp only [List.cons_append, applyFiltersToDoc, hx, Bind.bind, Except.bind]
        exact ih d2 hd rest
  refine ⟨applyNodeFilter_error_from_filter nf fuel doc1 e herr, fun rest => ?_⟩
  have hfinal := hlist pre (parseDoc md) hpre rest
  simp [applyNodeFilters, hfinal, Bind.bind, Except.bind]

/-- `applyNodeFilters_error_aborts` evaluated with a concrete always-failing
filter as the first pipeline element. -/
theorem applyNodeFilters_error_aborts_witness :
    applyFiltersToDoc 1 ([] : List (NodeFilter (List NodeId) String)) [(0, [1])]
        = .ok [(0, [1])]
    ∧ applyNodeFilter exampleFailingFilter 1 [(0, [1])] = .error "lookup failed"
    ∧ ((∃ n d, exampleFailingFilter.filter n d = .error "lookup failed")
       ∧ ∀ rest : List (NodeFilter (List NodeId) String),
          applyNodeFilters (fun _ => [(0, [1])]) (fun _ => "")
              ([] ++ exampleFailingFilter :: rest) 1 "md"
            = .error "lookup failed") :=
  ⟨rfl, rfl,
   applyNodeFilters_error_aborts (fun _ => [(0, [1])]) (fun _ => "")
     [] exampleFailingFilter 1 "md" [(0, [1])] "lookup failed" rfl rfl⟩

end NodeFilterPipeline
